import Mathlib

/-!
Verification of the arena allocator (`src/arena.h`, public-API revision) and the
growable pointer array (`src/arrayd.h`) of the `rizukirr/arena` repository.

The C code is shallowly embedded: machine addresses and sizes are `Nat`, the
heap allocator (`malloc`) is modelled by a monotone break pointer `brk` handing
out pairwise-disjoint regions, together with a finite failure script that can
force any individual `malloc` call to fail.  An arena is the chain of blocks
reachable from `head`, with `cur` the position of the block `current` points
to.  A `World` packages the arena, the system allocator state, and a ghost
list of the allocation ranges issued since the last reset.
-/

/-- A block of the arena: `base` is the address of `data[0]`, `capacity` the
size of the data region, `index` the bump cursor (fields as in `struct
ArenaBlock`; the `next` pointer is encoded by the position in the chain
list). -/
structure ArenaBlock where
  base : Nat
  capacity : Nat
  index : Nat
deriving Repr, DecidableEq

/-- The arena control structure: `blocks` is the chain reachable from `head`
(so `head` is `blocks.head?`), `cur` the position of `current` in that chain,
`default_block_size` as in `struct Arena`. -/
structure Arena where
  blocks : List ArenaBlock
  cur : Nat
  default_block_size : Nat
deriving Repr, DecidableEq

/-- System allocator state: `brk` is the next fresh address, `fails` a script
deciding whether each upcoming `malloc` call fails (empty script = all
succeed). -/
structure Sys where
  brk : Nat
  fails : List Bool
deriving Repr, DecidableEq

/-- `malloc` for a block with data region of `cap` bytes: returns the data
base address and advances `brk` past the region, or fails as scripted. -/
def Sys.malloc (s : Sys) (cap : Nat) : Option Nat × Sys :=
  match s.fails with
  | [] => (some s.brk, ⟨s.brk + cap, []⟩)
  | b :: rest => if b then (none, ⟨s.brk, rest⟩) else (some s.brk, ⟨s.brk + cap, rest⟩)

/-- The full state: arena, system allocator, and the ghost list of issued
(live) allocation ranges `(address, size)`. -/
structure World where
  arena : Arena
  sys : Sys
  live : List (Nat × Nat)
deriving Repr, DecidableEq

/-- Padding needed to align `ptr` to `alignment`, exactly as `align_up` in
`src/arena.h`: `(alignment - (ptr % alignment)) % alignment`. -/
def align_up (ptr alignment : Nat) : Nat :=
  (alignment - ptr % alignment) % alignment

/-- `arena_init`: fails on a zero default block size, otherwise returns an
empty arena (no block allocated yet). -/
def arena_init (default_block_size : Nat) : Option Arena :=
  if default_block_size = 0 then none
  else some ⟨[], 0, default_block_size⟩

/-- A freshly initialised world with the given default block size and system
state (the successful `arena_init` path). -/
def initW (default_block_size : Nat) (sys : Sys) : World :=
  ⟨⟨[], 0, default_block_size⟩, sys, []⟩

/-- The final lines of `arena_alloc`: bump the current block's index by the
padding, take the pointer, bump by `size`.  (The `none` branch is a model
artifact for a `cur` out of range; it is unreachable from well-formed
states.) -/
def commit (w : World) (size alignment : Nat) : Option Nat × World :=
  match w.arena.blocks[w.arena.cur]? with
  | none => (none, w)
  | some c =>
    let start := c.index + align_up (c.base + c.index) alignment
    (some (c.base + start),
     { w with
        arena := { w.arena with
                    blocks := w.arena.blocks.set w.arena.cur { c with index := start + size } },
        live := w.live ++ [(c.base + start, size)] })

/-- The body of `arena_alloc` once a current block exists: compute the
padding, spill to a freshly malloc'd block when the padded request does not
fit (overwriting `current->next` and making the new block `current`), then
commit.  Note the code recomputes the padding for the new block but does not
re-check the fit, exactly as the C source. -/
def allocCore (w : World) (size alignment : Nat) : Option Nat × World :=
  match w.arena.blocks[w.arena.cur]? with
  | none => (none, w)
  | some c =>
    if c.index + align_up (c.base + c.index) alignment + size > c.capacity then
      match w.sys.malloc (max size w.arena.default_block_size) with
      | (none, s') => (none, { w with sys := s' })
      | (some b2, s') =>
        commit { w with
                  arena := { w.arena with
                              blocks := w.arena.blocks.take (w.arena.cur + 1) ++
                                [⟨b2, max size w.arena.default_block_size, 0⟩],
                              cur := w.arena.cur + 1 },
                  sys := s' } size alignment
    else commit w size alignment

/-- `arena_alloc` of the public-API revision: reject `size == 0`,
`alignment == 0` and non-power-of-two alignment (`alignment & (alignment-1)`),
lazily create the first block with capacity `max(size, default_block_size)`,
then allocate from the current block. -/
def arena_alloc (w : World) (size alignment : Nat) : Option Nat × World :=
  if size = 0 then (none, w)
  else if alignment = 0 then (none, w)
  else if alignment &&& (alignment - 1) ≠ 0 then (none, w)
  else
    match w.arena.blocks with
    | [] =>
      match w.sys.malloc (max size w.arena.default_block_size) with
      | (none, s') => (none, { w with sys := s' })
      | (some b, s') =>
        allocCore { w with
                     arena := { w.arena with
                                 blocks := [⟨b, max size w.arena.default_block_size, 0⟩],
                                 cur := 0 },
                     sys := s' } size alignment
    | _ :: _ => allocCore w size alignment

/-- `arena_alloc` at the handle level: a null arena handle fails. -/
def arena_allocOpt : Option World → Nat → Nat → Option Nat
  | none, _, _ => none
  | some w, size, alignment => (arena_alloc w size alignment).1

/-- `arena_reset`: zero the index of every block in the chain and point
`current` back to `head`. -/
def arena_reset (a : Arena) : Arena :=
  { a with blocks := a.blocks.map (fun b => { b with index := 0 }), cur := 0 }

/-- `arena_reset` at the world level: the reset logically frees all issued
allocations (ghost list cleared); the system allocator is untouched. -/
def arena_resetW (w : World) : World :=
  { w with arena := arena_reset w.arena, live := [] }

/-- The loop of `arena_free`: walk the chain and release each block; the
result lists the released block addresses in chain order. -/
def arena_free_walk : List ArenaBlock → List Nat
  | [] => []
  | b :: rest => b.base :: arena_free_walk rest

/-- `arena_free` at the handle level: the released block addresses together
with whether the arena control structure itself was released.  A null handle
releases nothing. -/
def arena_freeT : Option Arena → List Nat × Bool
  | none => ([], false)
  | some a => (arena_free_walk a.blocks, true)

/-- Modelled from the spec: `ArenaCheckpoint` is absent from `src/arena.h`
(only the README and `example/main.c` refer to it); per spec section 4.4 a
checkpoint captures the identity of the block that was `current` at capture
time (its position in the chain, `none` when no block existed yet) and that
block's `index` at capture time. -/
structure ArenaCheckpoint where
  block : Option Nat
  index : Nat
deriving Repr, DecidableEq

/-- Modelled from the spec: `arena_checkpoint` is absent from `src/arena.h`;
per spec section 4.4 it captures the current block's identity and index. -/
def arena_checkpoint (a : Arena) : ArenaCheckpoint :=
  match a.blocks with
  | [] => ⟨none, 0⟩
  | _ :: _ => ⟨some a.cur, ((a.blocks[a.cur]?).map (fun b => b.index)).getD 0⟩

/-- Modelled from the spec: the chain rewrite of `arena_restore`.  Walking
the chain towards the captured block, blocks before it are untouched, the
captured block's index is set back to the captured value, and every block
after it (all of them when the checkpoint predates any block) has its index
set to 0. -/
def restoreBlocks : List ArenaBlock → Option Nat → Nat → List ArenaBlock
  | [], _, _ => []
  | b :: rest, none, i => { b with index := 0 } :: restoreBlocks rest none i
  | b :: rest, some 0, i => { b with index := i } :: restoreBlocks rest none i
  | b :: rest, some (k + 1), i => b :: restoreBlocks rest (some k) i

/-- Modelled from the spec: `arena_restore` is absent from `src/arena.h`;
per spec section 4.4 it rewinds the captured block to the captured index,
zeroes every later block, and makes the captured block `current` (position 0,
i.e. `head`, when the checkpoint predates any block). -/
def arena_restore (a : Arena) (cp : ArenaCheckpoint) : Arena :=
  { a with
     blocks := restoreBlocks a.blocks cp.block cp.index,
     cur := match cp.block with | none => 0 | some k => k }

/-- The model of `struct Arrayd`: a buffer of pointer-sized cells (`data`,
of capacity `length`) and the element count `index`. -/
structure Arrayd where
  data : List Nat
  length : Nat
  index : Nat
deriving Repr, DecidableEq

/-- `arrayd_count`: the element count. -/
def arrayd_count (a : Arrayd) : Nat := a.index

/-- `arrayd_get`: read the cell at `index` (caller contract: `index <
count`). -/
def arrayd_get (a : Arrayd) (i : Nat) : Nat := a.data.getD i 0

/-- `arrayd_remove_at`: `memmove` the `count - i - 1` cells after position
`i` one cell to the left and decrement the count (caller contract: `i <
count`).  Cells from position `count - 1` on are not written. -/
def arrayd_remove_at (a : Arrayd) (i : Nat) : Arrayd :=
  let cnt := a.index - i - 1
  { a with
     data := a.data.take i ++ (a.data.drop (i + 1)).take cnt ++ a.data.drop (i + cnt),
     index := a.index - 1 }

/-- States reachable through the public arena API. -/
inductive Reach : World → Prop
  | init (dbs : Nat) (sys : Sys) (h : 0 < dbs) : Reach (initW dbs sys)
  | alloc {w} (size alignment : Nat) : Reach w → Reach (arena_alloc w size alignment).2
  | reset {w} : Reach w → Reach (arena_resetW w)

/-- Worlds obtained from `w` by a sequence of `arena_alloc` calls only. -/
inductive AllocSeq : World → World → Prop
  | refl (w : World) : AllocSeq w w
  | step {w w'} (size alignment : Nat) :
      AllocSeq w w' → AllocSeq w (arena_alloc w' size alignment).2

/-! ### Basic arithmetic and list helpers -/

/-- A power of two passes the `alignment & (alignment - 1)` test of
`arena_alloc`. -/
theorem two_pow_land_sub_one (k : Nat) : 2 ^ k &&& (2 ^ k - 1) = 0 := by
  apply Nat.zero_of_testBit_eq_false
  intro i
  rw [Nat.testBit_land]
  rcases eq_or_ne k i with rfl | h
  · simp
  · simp [Nat.testBit_two_pow_of_ne h]

/-- The `alignment & (alignment - 1)` test of `arena_alloc` accepts a nonzero
alignment exactly when it is a power of two. -/
theorem land_sub_one_eq_zero_iff {a : Nat} (ha : a ≠ 0) :
    a &&& (a - 1) = 0 ↔ ∃ k, a = 2 ^ k := by
  constructor
  · intro hland
    refine ⟨Nat.log 2 a, ?_⟩
    have h1 : 2 ^ Nat.log 2 a ≤ a := Nat.pow_log_le_self 2 ha
    have h2 : a < 2 ^ (Nat.log 2 a + 1) := Nat.lt_pow_succ_log_self (by norm_num) a
    by_contra hne
    set k := Nat.log 2 a with hk
    obtain ⟨r, hr⟩ : ∃ r, a = 2 ^ k + r := ⟨a - 2 ^ k, by omega⟩
    have hpow2 : 2 ^ (k + 1) = 2 ^ k + 2 ^ k := by ring
    have hr0 : 0 < r := by omega
    have hrlt : r < 2 ^ k := by omega
    have hbita : a.testBit k = true := by
      rw [hr, Nat.testBit_two_pow_add_eq, Nat.testBit_eq_false_of_lt hrlt]
      rfl
    have hbitb : (a - 1).testBit k = true := by
      have heq : a - 1 = 2 ^ k + (r - 1) := by omega
      rw [heq, Nat.testBit_two_pow_add_eq,
        Nat.testBit_eq_false_of_lt (show r - 1 < 2 ^ k by omega)]
      rfl
    have hbit : (a &&& (a - 1)).testBit k = true := by
      rw [Nat.testBit_land, hbita, hbitb]
      rfl
    rw [hland] at hbit
    simp at hbit
  · rintro ⟨k, rfl⟩
    exact two_pow_land_sub_one k

/-- A successful `malloc` returns the current break address. -/
theorem Sys.malloc_some {s : Sys} {cap b : Nat} {s' : Sys}
    (h : s.malloc cap = (some b, s')) : b = s.brk ∧ s'.brk = s.brk + cap := by
  unfold Sys.malloc at h
  rcases s with ⟨brk, fails⟩
  match fails with
  | [] =>
    simp at h
    obtain ⟨h1, h2⟩ := h
    subst h1
    subst h2
    exact ⟨rfl, rfl⟩
  | v :: rest =>
    by_cases hv : v = true
    · simp [hv] at h
    · simp [hv] at h
      obtain ⟨h1, h2⟩ := h
      subst h1
      subst h2
      exact ⟨rfl, rfl⟩

/-- A failed `malloc` leaves the break address unchanged. -/
theorem Sys.malloc_none {s : Sys} {cap : Nat} {s' : Sys}
    (h : s.malloc cap = (none, s')) : s'.brk = s.brk := by
  unfold Sys.malloc at h
  rcases s with ⟨brk, fails⟩
  match fails with
  | [] => simp at h
  | v :: rest =>
    by_cases hv : v = true
    · simp [hv] at h
      rw [← h]
    · simp [hv] at h

/-- An empty failure script makes `malloc` succeed. -/
theorem Sys.malloc_of_fails_nil {s : Sys} {cap : Nat} (h : s.fails = []) :
    s.malloc cap = (some s.brk, ⟨s.brk + cap, []⟩) := by
  unfold Sys.malloc
  rw [h]

/-- `malloc` keeps an empty failure script empty. -/
theorem Sys.malloc_fails_nil {s : Sys} {cap : Nat} {r : Option Nat} {s' : Sys}
    (h : s.fails = []) (hm : s.malloc cap = (r, s')) : s'.fails = [] := by
  rw [Sys.malloc_of_fails_nil h] at hm
  cases hm
  rfl

/-- The new block appended by the spill path sits at position `cur + 1`. -/
theorem getElem?_take_append {l : List ArenaBlock} {nb : ArenaBlock} {k : Nat}
    (hk : k < l.length) : (l.take (k + 1) ++ [nb])[k + 1]? = some nb := by
  have hlen : (l.take (k + 1)).length = k + 1 := by
    rw [List.length_take]; omega
  rw [List.getElem?_append_right (by omega), hlen]
  simp

/-! ### Characterisations of the branches of `arena_alloc` -/

/-- Unfolding of the commit step when the current block exists. -/
theorem commit_eq {w : World} {s a : Nat} {c : ArenaBlock}
    (h : w.arena.blocks[w.arena.cur]? = some c) :
    commit w s a =
      (some (c.base + (c.index + align_up (c.base + c.index) a)),
       { w with
          arena := { w.arena with
                      blocks := w.arena.blocks.set w.arena.cur
                        { c with index := c.index + align_up (c.base + c.index) a + s } },
          live := w.live ++ [(c.base + (c.index + align_up (c.base + c.index) a), s)] }) := by
  unfold commit
  rw [h]

/-- Unfolding of `allocCore` when the padded request fits the current
block. -/
theorem allocCore_of_fit {w : World} {s a : Nat} {c : ArenaBlock}
    (h : w.arena.blocks[w.arena.cur]? = some c)
    (hfit : ¬ c.index + align_up (c.base + c.index) a + s > c.capacity) :
    allocCore w s a = commit w s a := by
  unfold allocCore
  rw [h]
  simp [hfit]

/-- Unfolding of `allocCore` when the request does not fit and the spill
`malloc` fails. -/
theorem allocCore_of_spill_fail {w : World} {s a : Nat} {c : ArenaBlock} {s' : Sys}
    (h : w.arena.blocks[w.arena.cur]? = some c)
    (hfit : c.index + align_up (c.base + c.index) a + s > c.capacity)
    (hm : w.sys.malloc (max s w.arena.default_block_size) = (none, s')) :
    allocCore w s a = (none, { w with sys := s' }) := by
  unfold allocCore
  rw [h]
  simp [hfit, hm]

/-- Unfolding of `allocCore` when the request does not fit and the spill
`malloc` succeeds. -/
theorem allocCore_of_spill {w : World} {s a : Nat} {c : ArenaBlock} {b2 : Nat} {s' : Sys}
    (h : w.arena.blocks[w.arena.cur]? = some c)
    (hfit : c.index + align_up (c.base + c.index) a + s > c.capacity)
    (hm : w.sys.malloc (max s w.arena.default_block_size) = (some b2, s')) :
    allocCore w s a =
      commit { w with
                arena := { w.arena with
                            blocks := w.arena.blocks.take (w.arena.cur + 1) ++
                              [⟨b2, max s w.arena.default_block_size, 0⟩],
                            cur := w.arena.cur + 1 },
                sys := s' } s a := by
  unfold allocCore
  rw [h]
  simp [hfit, hm]

/-- `arena_alloc` with a zero size fails without touching the state. -/
theorem arena_alloc_of_size_zero {w : World} {a : Nat} :
    arena_alloc w 0 a = (none, w) := by
  unfold arena_alloc
  simp

/-- `arena_alloc` with an alignment failing the power-of-two test fails
without touching the state. -/
theorem arena_alloc_of_bad_align {w : World} {s a : Nat}
    (h : ¬ (a ≠ 0 ∧ a &&& (a - 1) = 0)) :
    arena_alloc w s a = (none, w) := by
  unfold arena_alloc
  rcases eq_or_ne s 0 with rfl | hs
  · simp
  rcases eq_or_ne a 0 with rfl | ha
  · simp [hs]
  have : a &&& (a - 1) ≠ 0 := by tauto
  simp [hs, ha, this]

/-- On an arena with no block, `arena_alloc` with good arguments first
creates the head block and then runs the core allocation on it. -/
theorem arena_alloc_of_empty {w : World} {s a : Nat} {b : Nat} {s' : Sys}
    (hblocks : w.arena.blocks = [])
    (hs : s ≠ 0) (ha : a ≠ 0) (hland : a &&& (a - 1) = 0)
    (hm : w.sys.malloc (max s w.arena.default_block_size) = (some b, s')) :
    arena_alloc w s a =
      allocCore { w with
                   arena := { w.arena with
                               blocks := [⟨b, max s w.arena.default_block_size, 0⟩],
                               cur := 0 },
                   sys := s' } s a := by
  unfold arena_alloc
  simp [hs, ha, hland, hblocks, hm]

/-- On an arena with no block, `arena_alloc` fails without touching the
arena when the first-block `malloc` fails. -/
theorem arena_alloc_of_empty_fail {w : World} {s a : Nat} {s' : Sys}
    (hblocks : w.arena.blocks = [])
    (hs : s ≠ 0) (ha : a ≠ 0) (hland : a &&& (a - 1) = 0)
    (hm : w.sys.malloc (max s w.arena.default_block_size) = (none, s')) :
    arena_alloc w s a = (none, { w with sys := s' }) := by
  unfold arena_alloc
  simp [hs, ha, hland, hblocks, hm]

/-- On an arena that already has a block, `arena_alloc` with good arguments
is the core allocation. -/
theorem arena_alloc_of_nonempty {w : World} {s a : Nat}
    (hblocks : w.arena.blocks ≠ [])
    (hs : s ≠ 0) (ha : a ≠ 0) (hland : a &&& (a - 1) = 0) :
    arena_alloc w s a = allocCore w s a := by
  unfold arena_alloc
  rcases hbs : w.arena.blocks with _ | ⟨hd, tl⟩
  · exact absurd hbs hblocks
  · simp [hs, ha, hland]

/-! ### Claims C1 and C3: the missing fit re-check after a spill -/

/-- C1 (code bug): the spec guarantees that a successful
`alloc(arena, size, alignment)` returns an aligned address whose byte range
lies inside the current block's data region, in particular when the call
creates a new block whose base address forces nonzero recomputed padding.
The code violates this: with `default_block_size = 16` and block bases
`8` and `24` (both misaligned for alignment 16, as for real `malloc`
results offset by the 24-byte block header), `alloc(16, 16)` spills to a
fresh block of capacity 16 at base 24, recomputes padding 8, and returns
address 32 with range `[32, 48)`, which extends 8 bytes past the block's
data region `[24, 40)`; the block cursor ends at 24 > capacity 16.  The
address is aligned (`32 % 16 = 0`), but containment fails because the fit
check is not redone after the spill. -/
theorem c1_alloc_escapes_block :
    (arena_alloc (initW 16 ⟨8, []⟩) 16 16).1 = some 32 ∧
    32 % 16 = 0 ∧
    (arena_alloc (initW 16 ⟨8, []⟩) 16 16).2.arena.cur = 1 ∧
    (arena_alloc (initW 16 ⟨8, []⟩) 16 16).2.arena.blocks[1]? =
      some ⟨24, 16, 24⟩ ∧
    24 + 16 < 32 + 16 := by
  decide

/-- C3 (code bug): the invariant `0 <= index <= capacity` is violated on a
reachable state: after `arena_init(16)` (with block bases 8 and 24, i.e.
misaligned for alignment 16) a single `alloc(16, 16)` leaves the current
block with `index = 24` but `capacity = 16`, because the spill path bumps
the index by the recomputed padding plus the size without re-checking the
fit. -/
theorem c3_index_exceeds_capacity :
    Reach (arena_alloc (initW 16 ⟨8, []⟩) 16 16).2 ∧
    ((arena_alloc (initW 16 ⟨8, []⟩) 16 16).2.arena.blocks[1]?).map
        (fun b => b.index) = some 24 ∧
    ((arena_alloc (initW 16 ⟨8, []⟩) 16 16).2.arena.blocks[1]?).map
        (fun b => b.capacity) = some 16 ∧
    16 < 24 :=
  ⟨Reach.alloc 16 16 (Reach.init 16 ⟨8, []⟩ (by decide)), by decide, by decide,
    by decide⟩

/-! ### Claim C5: reset followed by reallocation -/

/-- The starting world of the C5 counterexample: default block size 16 and
first block base 4. -/
def c5start : World := initW 16 ⟨4, []⟩

/-- The C5 counterexample world: two allocations of 16 bytes (alignment 1),
so the arena holds two full blocks of capacity 16 at bases 4 and 20, then a
reset. -/
def c5resetWorld : World :=
  arena_resetW (arena_alloc (arena_alloc c5start 16 1).2 16 1).2

/-- C5 counterexample: an arena with one allocation done (head block of
capacity 16, fully used, base 4), reset; the claim promises that
`alloc(16, 8)` (size 16 at most the previously used capacity 16, alignment
8 a power of two) returns the address a fresh arena with the same default
block size would return for its first allocation — head memory reused, no
new acquisition.  In fact the padding for alignment 8 at base 4 makes the
request miss the head block, so the reset arena acquires a brand-new block
(its `brk` moves) and returns 40, while the fresh arena (first block placed
at the very same base 4) returns 24. -/
theorem c5_reset_realloc_counterexample :
    c5resetWorld.arena.blocks[0]? = some ⟨4, 16, 0⟩ ∧
    (arena_alloc c5resetWorld 16 8).1 = some 40 ∧
    (arena_alloc (initW 16 ⟨4, []⟩) 16 8).1 = some 24 ∧
    (some 40 : Option Nat) ≠ some 24 ∧
    (arena_alloc c5resetWorld 16 8).2.sys ≠ c5resetWorld.sys := by
  decide

/-- C5 (amended): after a reset, an allocation whose padded size fits both
the head block and a fresh first block of capacity
`max(size, default_block_size)` returns the head block's base plus padding,
performs no system allocation (memory reused, not re-acquired), and is
bit-identical to the first allocation of a fresh arena with the same
default block size whose first block sits at the same base address. -/
theorem c5_reset_realloc_amended (w : World) (s a : Nat) (hd : ArenaBlock)
    (tl : List ArenaBlock)
    (hblocks : w.arena.blocks = hd :: tl)
    (hs : s ≠ 0)
    (hpow : ∃ k, a = 2 ^ k)
    (hfit1 : align_up hd.base a + s ≤ hd.capacity)
    (hfit2 : align_up hd.base a + s ≤ max s w.arena.default_block_size) :
    (arena_alloc (arena_resetW w) s a).1 = some (hd.base + align_up hd.base a) ∧
    (arena_alloc (arena_resetW w) s a).2.sys = w.sys ∧
    (arena_alloc (initW w.arena.default_block_size ⟨hd.base, []⟩) s a).1 =
      some (hd.base + align_up hd.base a) := by
  obtain ⟨k, rfl⟩ := hpow
  have ha : (2 : Nat) ^ k ≠ 0 := (Nat.pos_pow_of_pos k (by norm_num)).ne'
  have hland := two_pow_land_sub_one k
  have hrblocks : (arena_resetW w).arena.blocks =
      { hd with index := 0 } :: tl.map (fun b => { b with index := 0 }) := by
    simp [arena_resetW, arena_reset, hblocks]
  have hrcell : (arena_resetW w).arena.blocks[(arena_resetW w).arena.cur]? =
      some { hd with index := 0 } := by
    have hc : (arena_resetW w).arena.cur = 0 := rfl
    rw [hrblocks, hc]
    simp
  have hfitr : ¬ ({ hd with index := 0 } : ArenaBlock).index +
      align_up (({ hd with index := 0 } : ArenaBlock).base +
        ({ hd with index := 0 } : ArenaBlock).index) (2 ^ k) + s >
      ({ hd with index := 0 } : ArenaBlock).capacity := by
    show ¬ (0 + align_up (hd.base + 0) (2 ^ k) + s > hd.capacity)
    simp only [Nat.zero_add, Nat.add_zero, gt_iff_lt, not_lt]
    exact hfit1
  have hreset := @arena_alloc_of_nonempty (arena_resetW w) s (2 ^ k)
    (by rw [hrblocks]; exact List.cons_ne_nil _ _) hs ha hland
  rw [hreset, allocCore_of_fit hrcell hfitr, commit_eq hrcell]
  refine ⟨by simp, rfl, ?_⟩
  -- fresh arena part
  have hfm : (⟨hd.base, []⟩ : Sys).malloc
      (max s (initW w.arena.default_block_size ⟨hd.base, []⟩).arena.default_block_size) =
      (some hd.base, ⟨hd.base + max s w.arena.default_block_size, []⟩) := by
    exact Sys.malloc_of_fails_nil rfl
  rw [arena_alloc_of_empty rfl hs ha hland hfm]
  have hcell : (({ initW w.arena.default_block_size ⟨hd.base, []⟩ with
      arena := { (initW w.arena.default_block_size ⟨hd.base, []⟩).arena with
                  blocks := [⟨hd.base,
                    max s (initW w.arena.default_block_size ⟨hd.base, []⟩).arena.default_block_size, 0⟩],
                  cur := 0 },
      sys := (⟨hd.base + max s w.arena.default_block_size, []⟩ : Sys) } : World).arena.blocks[(0 : Nat)]?) =
      some ⟨hd.base, max s w.arena.default_block_size, 0⟩ := by
    rfl
  have hfitf : ¬ (⟨hd.base, max s w.arena.default_block_size, 0⟩ : ArenaBlock).index +
      align_up ((⟨hd.base, max s w.arena.default_block_size, 0⟩ : ArenaBlock).base +
        (⟨hd.base, max s w.arena.default_block_size, 0⟩ : ArenaBlock).index) (2 ^ k) + s >
      (⟨hd.base, max s w.arena.default_block_size, 0⟩ : ArenaBlock).capacity := by
    show ¬ (0 + align_up (hd.base + 0) (2 ^ k) + s > max s w.arena.default_block_size)
    simp only [Nat.zero_add, Nat.add_zero, gt_iff_lt, not_lt]
    exact hfit2
  rw [allocCore_of_fit hcell hfitf, commit_eq hcell]
  simp

/-- Witness for the amended C5 theorem: an arena with one 8-byte allocation
in a head block of capacity 16 at base 4; after reset, `alloc(8, 1)` returns
base 4 again, as does a fresh arena whose first block sits at base 4. -/
theorem c5_reset_realloc_amended_witness :
    (arena_alloc (arena_resetW (arena_alloc (initW 16 ⟨4, []⟩) 8 1).2) 8 1).1 =
      some (4 + align_up 4 1) ∧
    (arena_alloc (initW 16 ⟨4, []⟩) 8 1).1 = some (4 + align_up 4 1) := by
  have h := c5_reset_realloc_amended (arena_alloc (initW 16 ⟨4, []⟩) 8 1).2 8 1
    ⟨4, 16, 8⟩ [] (by decide) (by decide) ⟨0, rfl⟩ (by decide) (by decide)
  exact ⟨h.1, h.2.2⟩

/-! ### Claim C6: state after a failed allocation -/

/-- On a failed `allocCore` with a valid current block, nothing but the
system allocator state changes. -/
theorem allocCore_fail_state {w : World} {s a : Nat} {c : ArenaBlock}
    (hc : w.arena.blocks[w.arena.cur]? = some c)
    (hfail : (allocCore w s a).1 = none) :
    (allocCore w s a).2.arena = w.arena ∧ (allocCore w s a).2.live = w.live := by
  by_cases hfit : c.index + align_up (c.base + c.index) a + s > c.capacity
  · rcases hm : w.sys.malloc (max s w.arena.default_block_size) with ⟨r, s'⟩
    match r with
    | none =>
      rw [allocCore_of_spill_fail hc hfit hm]
      exact ⟨rfl, rfl⟩
    | some b2 =>
      exfalso
      have hlt : w.arena.cur < w.arena.blocks.length :=
        (List.getElem?_eq_some.mp hc).1
      have hcell : ({ w with
          arena := { w.arena with
                      blocks := w.arena.blocks.take (w.arena.cur + 1) ++
                        [⟨b2, max s w.arena.default_block_size, 0⟩],
                      cur := w.arena.cur + 1 },
          sys := s' } : World).arena.blocks[(w.arena.cur + 1)]? =
          some ⟨b2, max s w.arena.default_block_size, 0⟩ :=
        getElem?_take_append hlt
      rw [allocCore_of_spill hc hfit hm, commit_eq hcell] at hfail
      simp at hfail
  · exfalso
    rw [allocCore_of_fit hc hfit, commit_eq hc] at hfail
    simp at hfail

/-- C6 counterexample: the claim says a failed `alloc` leaves the arena's
observable state exactly as before the call.  On an arena with no block
yet, when the first-block `malloc` succeeds but the padded request does not
fit the fresh block (base 8 misaligned for alignment 16) and the spill
`malloc` then fails, `alloc` returns failure yet `head`/`current` now hold
a newly created block where they were null before. -/
theorem c6_failed_alloc_counterexample :
    (arena_alloc (initW 16 ⟨8, [false, true]⟩) 16 16).1 = none ∧
    (arena_alloc (initW 16 ⟨8, [false, true]⟩) 16 16).2.arena ≠
      (initW 16 ⟨8, [false, true]⟩).arena ∧
    (arena_alloc (initW 16 ⟨8, [false, true]⟩) 16 16).2.arena.blocks =
      [⟨8, 16, 0⟩] := by
  decide

/-- C6 (amended): whenever `alloc` fails, the issued allocations are
unchanged and the arena state is exactly as before the call, except that a
failed call on an arena with no block may leave behind the lazily created
head block (empty, with `head = current` and `index = 0`); no other partial
block is ever left linked and the arena remains well formed and usable. -/
theorem c6_failed_alloc_state (w : World) (s a : Nat)
    (hcur : w.arena.blocks ≠ [] → w.arena.cur < w.arena.blocks.length)
    (hfail : (arena_alloc w s a).1 = none) :
    (arena_alloc w s a).2.live = w.live ∧
    (w.arena.blocks ≠ [] → (arena_alloc w s a).2.arena = w.arena) ∧
    ((arena_alloc w s a).2.arena = w.arena ∨
      (arena_alloc w s a).2.arena =
        { w.arena with
           blocks := [⟨w.sys.brk, max s w.arena.default_block_size, 0⟩],
           cur := 0 }) := by
  rcases eq_or_ne s 0 with rfl | hs
  · rw [arena_alloc_of_size_zero]
    exact ⟨rfl, fun _ => rfl, Or.inl rfl⟩
  by_cases hp : a ≠ 0 ∧ a &&& (a - 1) = 0
  · obtain ⟨ha, hland⟩ := hp
    rcases hblocks : w.arena.blocks with _ | ⟨hd, tl⟩
    · -- no block yet: the first malloc may succeed and leave a head block
      rcases hm : w.sys.malloc (max s w.arena.default_block_size) with ⟨r, s'⟩
      match r with
      | none =>
        rw [arena_alloc_of_empty_fail hblocks hs ha hland hm]
        exact ⟨rfl, fun h => absurd rfl h, Or.inl rfl⟩
      | some b =>
        obtain ⟨hb, _⟩ := Sys.malloc_some hm
        subst hb
        rw [arena_alloc_of_empty hblocks hs ha hland hm] at hfail ⊢
        have hc : ({ w with
            arena := { w.arena with
                        blocks := [⟨w.sys.brk, max s w.arena.default_block_size, 0⟩],
                        cur := 0 },
            sys := s' } : World).arena.blocks[(0 : Nat)]? =
            some ⟨w.sys.brk, max s w.arena.default_block_size, 0⟩ := by simp
        obtain ⟨h1, h2⟩ := allocCore_fail_state hc hfail
        rw [h1, h2]
        exact ⟨rfl, fun h => absurd rfl h, Or.inr rfl⟩
    · have hne : w.arena.blocks ≠ [] := by rw [hblocks]; exact List.cons_ne_nil _ _
      have hlt : w.arena.cur < w.arena.blocks.length := hcur hne
      have hc : w.arena.blocks[w.arena.cur]? = some w.arena.blocks[w.arena.cur] :=
        List.getElem?_eq_getElem hlt
      rw [arena_alloc_of_nonempty hne hs ha hland] at hfail ⊢
      obtain ⟨h1, h2⟩ := allocCore_fail_state hc hfail
      exact ⟨h2, fun _ => h1, Or.inl h1⟩
  · rw [arena_alloc_of_bad_align hp]
    exact ⟨rfl, fun _ => rfl, Or.inl rfl⟩

/-- Witness for the amended C6 theorem: a failed first-block `malloc`
(failure script `[true]`) leaves the arena exactly as before. -/
theorem c6_failed_alloc_state_witness :
    (arena_alloc (initW 16 ⟨8, [true]⟩) 16 16).2.live =
      (initW 16 ⟨8, [true]⟩).live ∧
    ((arena_alloc (initW 16 ⟨8, [true]⟩) 16 16).2.arena =
        (initW 16 ⟨8, [true]⟩).arena ∨
      (arena_alloc (initW 16 ⟨8, [true]⟩) 16 16).2.arena =
        { (initW 16 ⟨8, [true]⟩).arena with
           blocks := [⟨(initW 16 ⟨8, [true]⟩).sys.brk, max 16 (initW 16 ⟨8, [true]⟩).arena.default_block_size, 0⟩],
           cur := 0 }) := by
  have h := c6_failed_alloc_state (initW 16 ⟨8, [true]⟩) 16 16
    (by intro h; exact absurd rfl h) (by decide)
  exact ⟨h.1, h.2.2⟩

/-! ### Claim C7: effects of reset -/

/-- C7 (confirmed): `reset` zeroes the cursor of every block in the chain
(not just the current one), sets `current` back to `head` (position 0),
and changes nothing else: every block keeps its base address and capacity
(so its data and its place in the chain), the default block size and the
system allocator are untouched (nothing released), and on an arena with no
blocks the reset is a no-op. -/
theorem c7_reset_effects (w : World) :
    ((arena_resetW w).arena.blocks.map (fun b => b.index)) =
      List.replicate w.arena.blocks.length 0 ∧
    ((arena_resetW w).arena.blocks.map (fun b => (b.base, b.capacity))) =
      w.arena.blocks.map (fun b => (b.base, b.capacity)) ∧
    (arena_resetW w).arena.blocks.length = w.arena.blocks.length ∧
    (arena_resetW w).arena.cur = 0 ∧
    (arena_resetW w).arena.default_block_size = w.arena.default_block_size ∧
    (arena_resetW w).sys = w.sys ∧
    (w.arena.blocks = [] → w.arena.cur = 0 → (arena_resetW w).arena = w.arena) := by
  obtain ⟨⟨bs, c, d⟩, sys, live⟩ := w
  refine ⟨?_, ?_, ?_, rfl, rfl, rfl, ?_⟩
  · simp only [arena_resetW, arena_reset, List.map_map]
    rw [List.eq_replicate_iff]
    constructor
    · simp
    · intro x hx
      simp only [List.mem_map, Function.comp] at hx
      obtain ⟨b, _, rfl⟩ := hx
      rfl
  · simp [arena_resetW, arena_reset, List.map_map, Function.comp]
  · simp [arena_resetW, arena_reset]
  · intro h1 h2
    simp only at h1 h2
    subst h1
    subst h2
    rfl

/-- Witness for the C7 theorem at a concrete two-block arena. -/
theorem c7_reset_effects_witness :
    ((arena_resetW ⟨⟨[⟨4, 16, 16⟩, ⟨20, 16, 7⟩], 1, 16⟩, ⟨36, []⟩, [(4, 16)]⟩).arena.blocks.map
        (fun b => b.index)) = List.replicate 2 0 ∧
    (arena_resetW ⟨⟨[⟨4, 16, 16⟩, ⟨20, 16, 7⟩], 1, 16⟩, ⟨36, []⟩, [(4, 16)]⟩).arena.cur = 0 ∧
    (arena_resetW ⟨⟨[⟨4, 16, 16⟩, ⟨20, 16, 7⟩], 1, 16⟩, ⟨36, []⟩, [(4, 16)]⟩).sys = ⟨36, []⟩ := by
  have h := c7_reset_effects ⟨⟨[⟨4, 16, 16⟩, ⟨20, 16, 7⟩], 1, 16⟩, ⟨36, []⟩, [(4, 16)]⟩
  exact ⟨h.1, h.2.2.2.1, h.2.2.2.2.2.1⟩

/-! ### Claim C10: removal from the pointer container -/

/-- Cell-level description of the `memmove` in `arrayd_remove_at`: cells
before `i` are untouched, cells from `i` to `count - 2` take the value of
their right neighbour, and cells from `count - 1` on are not written. -/
theorem arrayd_remove_at_data (a : Arrayd) (i : Nat) (h1 : i < a.index)
    (h2 : a.index ≤ a.data.length) (j : Nat) :
    (arrayd_remove_at a i).data[j]? =
      if j < i then a.data[j]?
      else if j + 1 < a.index then a.data[j + 1]?
      else a.data[j]? := by
  have hilen : i ≤ a.data.length := by omega
  have hlen1 : (a.data.take i).length = i := by
    rw [List.length_take]; omega
  have hlen2 : ((a.data.drop (i + 1)).take (a.index - i - 1)).length =
      a.index - i - 1 := by
    rw [List.length_take, List.length_drop]; omega
  unfold arrayd_remove_at
  simp only
  rw [List.append_assoc, List.getElem?_append, hlen1]
  by_cases hj1 : j < i
  · rw [if_pos hj1, if_pos hj1, List.getElem?_take_of_lt hj1]
  · rw [if_neg hj1, if_neg hj1, List.getElem?_append, hlen2]
    by_cases hj2 : j + 1 < a.index
    · have hm : j - i < a.index - i - 1 := by omega
      rw [if_pos hm, if_pos hj2, List.getElem?_take_of_lt hm, List.getElem?_drop]
      congr 1
      omega
    · have hm : ¬ j - i < a.index - i - 1 := by omega
      rw [if_neg hm, if_neg hj2, List.getElem?_drop]
      congr 1
      omega

/-- C10 (confirmed): for a container holding `n` elements and `i < n`,
`arrayd_remove_at` decreases the count to `n - 1`, leaves every element
before position `i` unchanged, and moves each element formerly at position
`j` (for `i < j < n`) to position `j - 1`, preserving the relative order of
the remaining elements. -/
theorem c10_remove_at_shifts (a : Arrayd) (i : Nat) (h1 : i < a.index)
    (h2 : a.index ≤ a.data.length) :
    arrayd_count (arrayd_remove_at a i) = arrayd_count a - 1 ∧
    (∀ j, j < i → arrayd_get (arrayd_remove_at a i) j = arrayd_get a j) ∧
    (∀ j, i < j → j < a.index →
      arrayd_get (arrayd_remove_at a i) (j - 1) = arrayd_get a j) := by
  refine ⟨rfl, ?_, ?_⟩
  · intro j hj
    unfold arrayd_get
    rw [List.getD_eq_getElem?_getD, List.getD_eq_getElem?_getD,
      arrayd_remove_at_data a i h1 h2 j, if_pos hj]
  · intro j hji hjn
    unfold arrayd_get
    rw [List.getD_eq_getElem?_getD, List.getD_eq_getElem?_getD,
      arrayd_remove_at_data a i h1 h2 (j - 1), if_neg (by omega),
      if_pos (by omega)]
    congr 2
    omega

/-- Witness for the C10 theorem: removing position 1 from a four-element
container. -/
theorem c10_remove_at_shifts_witness :
    arrayd_count (arrayd_remove_at ⟨[10, 20, 30, 40], 4, 4⟩ 1) = 3 ∧
    arrayd_get (arrayd_remove_at ⟨[10, 20, 30, 40], 4, 4⟩ 1) 0 =
      arrayd_get ⟨[10, 20, 30, 40], 4, 4⟩ 0 ∧
    arrayd_get (arrayd_remove_at ⟨[10, 20, 30, 40], 4, 4⟩ 1) 1 =
      arrayd_get ⟨[10, 20, 30, 40], 4, 4⟩ 2 := by
  have h := c10_remove_at_shifts ⟨[10, 20, 30, 40], 4, 4⟩ 1 (by decide) (by decide)
  exact ⟨h.1, h.2.1 0 (by decide), h.2.2 2 (by decide) (by decide)⟩

/-! ### Claim C2: exact failure conditions of `arena_alloc` -/

/-- With a well-placed current block, no pending `malloc` failure, a nonzero
size and a power-of-two alignment, `arena_alloc` succeeds. -/
theorem arena_alloc_some_of (w : World) (s a : Nat)
    (hcur : w.arena.blocks ≠ [] → w.arena.cur < w.arena.blocks.length)
    (hnofail : w.sys.fails = [])
    (hs : s ≠ 0) (hpow : ∃ k, a = 2 ^ k) :
    ∃ p, (arena_alloc w s a).1 = some p := by
  obtain ⟨k, rfl⟩ := hpow
  have ha : (2 : Nat) ^ k ≠ 0 := (Nat.pos_pow_of_pos k (by norm_num)).ne'
  have hland := two_pow_land_sub_one k
  rcases hblocks : w.arena.blocks with _ | ⟨hd, tl⟩
  · have hm := @Sys.malloc_of_fails_nil w.sys (max s w.arena.default_block_size) hnofail
    rw [arena_alloc_of_empty hblocks hs ha hland hm]
    set w1 : World :=
      { w with
         arena := { w.arena with
                     blocks := [⟨w.sys.brk, max s w.arena.default_block_size, 0⟩],
                     cur := 0 },
         sys := ⟨w.sys.brk + max s w.arena.default_block_size, []⟩ } with hw1
    have hc : w1.arena.blocks[w1.arena.cur]? =
        some ⟨w.sys.brk, max s w.arena.default_block_size, 0⟩ := by
      rw [hw1]
      simp
    by_cases hfit : (⟨w.sys.brk, max s w.arena.default_block_size, 0⟩ : ArenaBlock).index +
        align_up ((⟨w.sys.brk, max s w.arena.default_block_size, 0⟩ : ArenaBlock).base +
          (⟨w.sys.brk, max s w.arena.default_block_size, 0⟩ : ArenaBlock).index) (2 ^ k) + s >
        (⟨w.sys.brk, max s w.arena.default_block_size, 0⟩ : ArenaBlock).capacity
    · have hm2 : w1.sys.malloc (max s w1.arena.default_block_size) =
          (some w1.sys.brk, ⟨w1.sys.brk + max s w1.arena.default_block_size, []⟩) :=
        Sys.malloc_of_fails_nil rfl
      rw [allocCore_of_spill hc hfit hm2]
      have hc2 : ({ w1 with
          arena := { w1.arena with
                      blocks := w1.arena.blocks.take (w1.arena.cur + 1) ++
                        [⟨w1.sys.brk, max s w1.arena.default_block_size, 0⟩],
                      cur := w1.arena.cur + 1 },
          sys := (⟨w1.sys.brk + max s w1.arena.default_block_size, []⟩ : Sys) } : World).arena.blocks[(w1.arena.cur + 1)]? =
          some ⟨w1.sys.brk, max s w1.arena.default_block_size, 0⟩ :=
        getElem?_take_append (by rw [hw1]; simp)
      rw [commit_eq hc2]
      exact ⟨_, rfl⟩
    · rw [allocCore_of_fit hc hfit, commit_eq hc]
      exact ⟨_, rfl⟩
  · have hne : w.arena.blocks ≠ [] := by rw [hblocks]; exact List.cons_ne_nil _ _
    have hlt : w.arena.cur < w.arena.blocks.length := hcur hne
    have hc : w.arena.blocks[w.arena.cur]? = some w.arena.blocks[w.arena.cur] :=
      List.getElem?_eq_getElem hlt
    rw [arena_alloc_of_nonempty hne hs ha hland]
    by_cases hfit : w.arena.blocks[w.arena.cur].index +
        align_up (w.arena.blocks[w.arena.cur].base + w.arena.blocks[w.arena.cur].index) (2 ^ k) + s >
        w.arena.blocks[w.arena.cur].capacity
    · have hm2 : w.sys.malloc (max s w.arena.default_block_size) =
          (some w.sys.brk, ⟨w.sys.brk + max s w.arena.default_block_size, []⟩) :=
        Sys.malloc_of_fails_nil hnofail
      rw [allocCore_of_spill hc hfit hm2]
      have hc2 : ({ w with
          arena := { w.arena with
                      blocks := w.arena.blocks.take (w.arena.cur + 1) ++
                        [⟨w.sys.brk, max s w.arena.default_block_size, 0⟩],
                      cur := w.arena.cur + 1 },
          sys := (⟨w.sys.brk + max s w.arena.default_block_size, []⟩ : Sys) } : World).arena.blocks[(w.arena.cur + 1)]? =
          some ⟨w.sys.brk, max s w.arena.default_block_size, 0⟩ :=
        getElem?_take_append hlt
      rw [commit_eq hc2]
      exact ⟨_, rfl⟩
    · rw [allocCore_of_fit hc hfit, commit_eq hc]
      exact ⟨_, rfl⟩

/-- C2 (confirmed): `alloc` fails exactly on an invalid (null) handle, a
zero size, a zero or non-power-of-two alignment, or a failed underlying
system allocation.  With no pending system failure, failure is equivalent to
a zero size or an alignment that is not a power of two (zero included); a
null handle always fails; `alloc(arena, 10, 3)` always fails; and on an
arena with no blocks a scripted `malloc` failure makes the call fail. -/
theorem c2_alloc_failure_conditions (w : World) (s a : Nat)
    (hcur : w.arena.blocks ≠ [] → w.arena.cur < w.arena.blocks.length) :
    arena_allocOpt none s a = none ∧
    (arena_alloc w 10 3).1 = none ∧
    (w.sys.fails = [] → ((arena_alloc w s a).1 = none ↔ s = 0 ∨ ¬ ∃ k, a = 2 ^ k)) ∧
    (w.arena.blocks = [] → w.sys.fails.head? = some true →
      (arena_alloc w s a).1 = none) := by
  refine ⟨rfl, ?_, ?_, ?_⟩
  · rw [arena_alloc_of_bad_align (by decide)]
  · intro hnofail
    constructor
    · intro hnone
      by_contra hcon
      push_neg at hcon
      obtain ⟨hs, hpow⟩ := hcon
      obtain ⟨p, hp⟩ := arena_alloc_some_of w s a hcur hnofail hs hpow
      rw [hp] at hnone
      exact Option.noConfusion hnone
    · rintro (rfl | hpow)
      · rw [arena_alloc_of_size_zero]
      · refine Eq.trans ?_ rfl
        rw [arena_alloc_of_bad_align ?_]
        rintro ⟨ha, hland⟩
        exact hpow ((land_sub_one_eq_zero_iff ha).mp hland)
  · intro hblocks hfails
    rcases eq_or_ne s 0 with rfl | hs
    · rw [arena_alloc_of_size_zero]
    by_cases hp : a ≠ 0 ∧ a &&& (a - 1) = 0
    · obtain ⟨ha, hland⟩ := hp
      obtain ⟨rest, hrest⟩ : ∃ rest, w.sys.fails = true :: rest := by
        rcases hf : w.sys.fails with _ | ⟨v, rest⟩
        · rw [hf] at hfails
          exact Option.noConfusion hfails
        · rw [hf] at hfails
          simp at hfails
          exact ⟨rest, by rw [hfails]⟩
      have hm : w.sys.malloc (max s w.arena.default_block_size) =
          (none, ⟨w.sys.brk, rest⟩) := by
        unfold Sys.malloc
        rw [hrest]
        simp
      rw [arena_alloc_of_empty_fail hblocks hs ha hland hm]
    · rw [arena_alloc_of_bad_align hp]

/-- Witness for the C2 theorem: a null handle fails, a non-power-of-two
alignment fails, a zero size fails. -/
theorem c2_alloc_failure_conditions_witness :
    arena_allocOpt none 10 8 = none ∧
    (arena_alloc (initW 8 ⟨0, []⟩) 10 3).1 = none ∧
    (arena_alloc (initW 8 ⟨0, []⟩) 0 8).1 = none := by
  have h := c2_alloc_failure_conditions (initW 8 ⟨0, []⟩) 0 8
    (fun hh => absurd rfl hh)
  exact ⟨h.1, h.2.1, (h.2.2.1 rfl).mpr (Or.inl rfl)⟩

/-! ### Claim C4: the spill path creates exactly one block -/

/-- Setting a cell at or beyond the taken prefix leaves the prefix
unchanged. -/
theorem take_set_of_le {α : Type} (l : List α) (n m : Nat) (x : α) (h : m ≤ n) :
    (l.set n x).take m = l.take m := by
  apply List.ext_getElem?
  intro i
  by_cases hi : i < m
  · rw [List.getElem?_take_of_lt hi, List.getElem?_take_of_lt hi,
      List.getElem?_set_ne (by omega)]
  · rw [List.getElem?_eq_none (by rw [List.length_take]; omega),
      List.getElem?_eq_none (by rw [List.length_take]; omega)]

/-- C4 (confirmed): whenever the padded request exceeds the remaining
capacity of the current block and the system allocation succeeds, `alloc`
creates exactly one new block (a single system allocation of exactly
`max(size, default_block_size)` bytes), with that capacity, links it after
the old current block, makes it the new current, and leaves both `head` and
the existing chain up to the old current block unchanged. -/
theorem c4_spill_creates_one_block (w : World) (s a : Nat) (c : ArenaBlock)
    (hc : w.arena.blocks[w.arena.cur]? = some c)
    (hs : s ≠ 0) (hpow : ∃ k, a = 2 ^ k)
    (hfit : c.index + align_up (c.base + c.index) a + s > c.capacity)
    (hnofail : w.sys.fails = []) :
    (arena_alloc w s a).2.sys.brk = w.sys.brk + max s w.arena.default_block_size ∧
    (arena_alloc w s a).2.arena.cur = w.arena.cur + 1 ∧
    (arena_alloc w s a).2.arena.blocks.length = w.arena.cur + 2 ∧
    ((arena_alloc w s a).2.arena.blocks[w.arena.cur + 1]?).map
        (fun b => (b.base, b.capacity)) =
      some (w.sys.brk, max s w.arena.default_block_size) ∧
    (arena_alloc w s a).2.arena.blocks.take (w.arena.cur + 1) =
      w.arena.blocks.take (w.arena.cur + 1) ∧
    (arena_alloc w s a).2.arena.blocks.head? = w.arena.blocks.head? := by
  obtain ⟨k, rfl⟩ := hpow
  have ha : (2 : Nat) ^ k ≠ 0 := (Nat.pos_pow_of_pos k (by norm_num)).ne'
  have hland := two_pow_land_sub_one k
  have hlt : w.arena.cur < w.arena.blocks.length := (List.getElem?_eq_some.mp hc).1
  have hne : w.arena.blocks ≠ [] := by
    intro hnil
    rw [hnil] at hlt
    exact absurd hlt (by simp)
  have hm : w.sys.malloc (max s w.arena.default_block_size) =
      (some w.sys.brk, ⟨w.sys.brk + max s w.arena.default_block_size, []⟩) :=
    Sys.malloc_of_fails_nil hnofail
  have hc2 : ({ w with
      arena := { w.arena with
                  blocks := w.arena.blocks.take (w.arena.cur + 1) ++
                    [⟨w.sys.brk, max s w.arena.default_block_size, 0⟩],
                  cur := w.arena.cur + 1 },
      sys := (⟨w.sys.brk + max s w.arena.default_block_size, []⟩ : Sys) } : World).arena.blocks[(w.arena.cur + 1)]? =
      some ⟨w.sys.brk, max s w.arena.default_block_size, 0⟩ :=
    getElem?_take_append hlt
  have hlentk : (w.arena.blocks.take (w.arena.cur + 1)).length = w.arena.cur + 1 := by
    rw [List.length_take]
    omega
  have hlen2 : (w.arena.blocks.take (w.arena.cur + 1) ++
      [(⟨w.sys.brk, max s w.arena.default_block_size, 0⟩ : ArenaBlock)]).length =
      w.arena.cur + 2 := by
    rw [List.length_append, hlentk]
    rfl
  have harena : (arena_alloc w s (2 ^ k)).2 =
      { arena := { blocks := (w.arena.blocks.take (w.arena.cur + 1) ++
                     [(⟨w.sys.brk, max s w.arena.default_block_size, 0⟩ : ArenaBlock)]).set
                     (w.arena.cur + 1)
                     (⟨w.sys.brk, max s w.arena.default_block_size,
                       0 + align_up (w.sys.brk + 0) (2 ^ k) + s⟩ : ArenaBlock),
                   cur := w.arena.cur + 1,
                   default_block_size := w.arena.default_block_size },
        sys := ⟨w.sys.brk + max s w.arena.default_block_size, []⟩,
        live := w.live ++ [(w.sys.brk + (0 + align_up (w.sys.brk + 0) (2 ^ k)), s)] } := by
    rw [arena_alloc_of_nonempty hne hs ha hland, allocCore_of_spill hc hfit hm,
      commit_eq hc2]
  rw [harena]
  refine ⟨rfl, rfl, ?_, ?_, ?_, ?_⟩
  · simp only [List.length_set]
    exact hlen2
  · rw [List.getElem?_set_self (by rw [hlen2]; omega)]
    rfl
  · rw [take_set_of_le _ _ _ _ (Nat.le_refl _),
      List.take_append_of_le_length (by rw [hlentk]), List.take_take]
    simp
  · rw [List.head?_eq_getElem?, List.head?_eq_getElem?,
      List.getElem?_set_ne (by omega), List.getElem?_append,
      if_pos (by rw [hlentk]; omega), List.getElem?_take_of_lt (by omega)]

/-- Witness for the C4 theorem: an arena with a full 16-byte head block;
`alloc(8, 1)` spills into a single new block of capacity
`max(8, 16) = 16`. -/
theorem c4_spill_creates_one_block_witness :
    ((arena_alloc (arena_alloc (initW 16 ⟨0, []⟩) 16 1).2 8 1).2.sys.brk = 16 + max 8 16) ∧
    (arena_alloc (arena_alloc (initW 16 ⟨0, []⟩) 16 1).2 8 1).2.arena.cur = 1 ∧
    (arena_alloc (arena_alloc (initW 16 ⟨0, []⟩) 16 1).2 8 1).2.arena.blocks.length = 2 ∧
    (arena_alloc (arena_alloc (initW 16 ⟨0, []⟩) 16 1).2 8 1).2.arena.blocks.head? =
      (arena_alloc (initW 16 ⟨0, []⟩) 16 1).2.arena.blocks.head? := by
  have h := c4_spill_creates_one_block (arena_alloc (initW 16 ⟨0, []⟩) 16 1).2 8 1
    ⟨0, 16, 16⟩ (by decide) (by decide) ⟨0, rfl⟩ (by decide) (by decide)
  exact ⟨h.1, h.2.1, h.2.2.1, h.2.2.2.2.2⟩

/-! ### Explicit forms of a successful `arena_alloc` on a nonempty arena -/

/-- Explicit result of `arena_alloc` when the padded request fits the
current block. -/
theorem arena_alloc_fit_eq {w : World} {s a : Nat} {c : ArenaBlock}
    (hne : w.arena.blocks ≠ []) (hs : s ≠ 0) (ha : a ≠ 0)
    (hland : a &&& (a - 1) = 0)
    (hc : w.arena.blocks[w.arena.cur]? = some c)
    (hfit : ¬ c.index + align_up (c.base + c.index) a + s > c.capacity) :
    (arena_alloc w s a).2 =
      { arena := { blocks := w.arena.blocks.set w.arena.cur
                     { c with index := c.index + align_up (c.base + c.index) a + s },
                   cur := w.arena.cur,
                   default_block_size := w.arena.default_block_size },
        sys := w.sys,
        live := w.live ++ [(c.base + (c.index + align_up (c.base + c.index) a), s)] } := by
  rw [arena_alloc_of_nonempty hne hs ha hland, allocCore_of_fit hc hfit,
    commit_eq hc]

/-- Explicit result of `arena_alloc` when the padded request does not fit
and the spill `malloc` succeeds. -/
theorem arena_alloc_spill_eq {w : World} {s a : Nat} {c : ArenaBlock} {b2 : Nat}
    {s' : Sys}
    (hne : w.arena.blocks ≠ []) (hs : s ≠ 0) (ha : a ≠ 0)
    (hland : a &&& (a - 1) = 0)
    (hc : w.arena.blocks[w.arena.cur]? = some c)
    (hfit : c.index + align_up (c.base + c.index) a + s > c.capacity)
    (hm : w.sys.malloc (max s w.arena.default_block_size) = (some b2, s')) :
    (arena_alloc w s a).2 =
      { arena := { blocks := (w.arena.blocks.take (w.arena.cur + 1) ++
                     [(⟨b2, max s w.arena.default_block_size, 0⟩ : ArenaBlock)]).set
                     (w.arena.cur + 1)
                     (⟨b2, max s w.arena.default_block_size,
                       0 + align_up (b2 + 0) a + s⟩ : ArenaBlock),
                   cur := w.arena.cur + 1,
                   default_block_size := w.arena.default_block_size },
        sys := s',
        live := w.live ++ [(b2 + (0 + align_up (b2 + 0) a), s)] } := by
  have hlt : w.arena.cur < w.arena.blocks.length := (List.getElem?_eq_some.mp hc).1
  have hc2 : ({ w with
      arena := { w.arena with
                  blocks := w.arena.blocks.take (w.arena.cur + 1) ++
                    [⟨b2, max s w.arena.default_block_size, 0⟩],
                  cur := w.arena.cur + 1 },
      sys := s' } : World).arena.blocks[(w.arena.cur + 1)]? =
      some ⟨b2, max s w.arena.default_block_size, 0⟩ :=
    getElem?_take_append hlt
  rw [arena_alloc_of_nonempty hne hs ha hland, allocCore_of_spill hc hfit hm,
    commit_eq hc2]

/-! ### Claim C9: free releases every block exactly once -/

/-- The address identity of a block: its base and capacity. -/
def prof (b : ArenaBlock) : Nat × Nat := (b.base, b.capacity)

/-- Well-formedness invariant of reachable worlds: every chain block has
positive capacity, lies below the system break, and the chain's block
regions are pairwise disjoint in chain order. -/
structure ArenaInv (w : World) : Prop where
  cap_pos : ∀ b ∈ w.arena.blocks, 0 < b.capacity
  in_brk : ∀ b ∈ w.arena.blocks, b.base + b.capacity ≤ w.sys.brk
  disj : w.arena.blocks.Pairwise (fun b b' => b.base + b.capacity ≤ b'.base)

/-- Replacing a cell by one with the same base and capacity preserves the
disjointness chain. -/
theorem pairwise_set_same_prof {l : List ArenaBlock} {n : Nat} {c c' : ArenaBlock}
    (hc : l[n]? = some c) (hbase : c'.base = c.base) (hcap : c'.capacity = c.capacity)
    (hp : l.Pairwise (fun b b' => b.base + b.capacity ≤ b'.base)) :
    (l.set n c').Pairwise (fun b b' => b.base + b.capacity ≤ b'.base) := by
  obtain ⟨hn, hcell⟩ := List.getElem?_eq_some.mp hc
  rw [List.pairwise_iff_getElem] at hp ⊢
  intro i j hi hj hij
  rw [List.length_set] at hi hj
  rcases eq_or_ne n i with rfl | hni
  · rw [List.getElem_set_self (by simpa using hn), List.getElem_set_ne (by omega)]
    rw [hbase, hcap, ← hcell]
    exact hp n j hn (by omega) hij
  · rw [List.getElem_set_ne hni]
    rcases eq_or_ne n j with rfl | hnj
    · rw [List.getElem_set_self (by simpa using hn), hbase, ← hcell]
      exact hp i n (by omega) hn hij
    · rw [List.getElem_set_ne hnj]
      exact hp i j (by omega) (by omega) hij

/-- The commit step preserves the invariant. -/
theorem inv_commit {w : World} {s a : Nat} (h : ArenaInv w) : ArenaInv (commit w s a).2 := by
  rcases hcell : w.arena.blocks[w.arena.cur]? with _ | c
  · unfold commit
    rw [hcell]
    exact h
  · have hmem : c ∈ w.arena.blocks := by
      obtain ⟨hn, hcl⟩ := List.getElem?_eq_some.mp hcell
      rw [← hcl]
      exact List.getElem_mem hn
    rw [commit_eq hcell]
    refine ⟨?_, ?_, ?_⟩
    · intro b hb
      rcases List.mem_or_eq_of_mem_set hb with hb' | rfl
      · exact h.cap_pos b hb'
      · exact h.cap_pos c hmem
    · intro b hb
      rcases List.mem_or_eq_of_mem_set hb with hb' | rfl
      · exact h.in_brk b hb'
      · exact h.in_brk c hmem
    · exact pairwise_set_same_prof hcell rfl rfl h.disj

/-- The full allocation body preserves the invariant when the requested
size is nonzero. -/
theorem inv_allocCore {w : World} {s a : Nat} (hs : s ≠ 0) (h : ArenaInv w) :
    ArenaInv (allocCore w s a).2 := by
  rcases hcell : w.arena.blocks[w.arena.cur]? with _ | c
  · unfold allocCore
    rw [hcell]
    exact h
  · by_cases hfit : c.index + align_up (c.base + c.index) a + s > c.capacity
    · rcases hm : w.sys.malloc (max s w.arena.default_block_size) with ⟨r, s'⟩
      match r with
      | none =>
        rw [allocCore_of_spill_fail hcell hfit hm]
        have hbrk := Sys.malloc_none hm
        refine ⟨h.cap_pos, ?_, h.disj⟩
        intro b hb
        rw [hbrk]
        exact h.in_brk b hb
      | some b2 =>
        obtain ⟨hb2, hbrk⟩ := Sys.malloc_some hm
        subst hb2
        rw [allocCore_of_spill hcell hfit hm]
        apply inv_commit
        refine ⟨?_, ?_, ?_⟩
        · intro b hb
          rcases List.mem_append.mp hb with hb' | hb'
          · exact h.cap_pos b (List.mem_of_mem_take hb')
          · rw [List.mem_singleton.mp hb']
            have : 0 < s := Nat.pos_of_ne_zero hs
            simp only
            omega
        · intro b hb
          rw [hbrk]
          rcases List.mem_append.mp hb with hb' | hb'
          · have := h.in_brk b (List.mem_of_mem_take hb')
            omega
          · rw [List.mem_singleton.mp hb']
        · rw [List.pairwise_append]
          refine ⟨h.disj.sublist (List.take_sublist _ _), List.pairwise_singleton _ _, ?_⟩
          intro b hb b' hb'
          rw [List.mem_singleton.mp hb']
          exact h.in_brk b (List.mem_of_mem_take hb)
    · rw [allocCore_of_fit hcell hfit]
      exact inv_commit h

/-- `arena_alloc` preserves the invariant. -/
theorem inv_alloc {w : World} (s a : Nat) (h : ArenaInv w) :
    ArenaInv (arena_alloc w s a).2 := by
  rcases eq_or_ne s 0 with rfl | hs
  · rw [arena_alloc_of_size_zero]
    exact h
  by_cases hp : a ≠ 0 ∧ a &&& (a - 1) = 0
  · obtain ⟨ha, hland⟩ := hp
    rcases hblocks : w.arena.blocks with _ | ⟨hd, tl⟩
    · rcases hm : w.sys.malloc (max s w.arena.default_block_size) with ⟨r, s'⟩
      match r with
      | none =>
        rw [arena_alloc_of_empty_fail hblocks hs ha hland hm]
        have hbrk := Sys.malloc_none hm
        refine ⟨h.cap_pos, ?_, h.disj⟩
        intro b hb
        rw [hbrk]
        exact h.in_brk b hb
      | some b =>
        obtain ⟨hb, hbrk⟩ := Sys.malloc_some hm
        subst hb
        rw [arena_alloc_of_empty hblocks hs ha hland hm]
        apply inv_allocCore hs
        refine ⟨?_, ?_, ?_⟩
        · intro b hb
          rw [List.mem_singleton.mp hb]
          have : 0 < s := Nat.pos_of_ne_zero hs
          simp only
          omega
        · intro b hb
          rw [List.mem_singleton.mp hb, hbrk]
        · exact List.pairwise_singleton _ _
    · have hne : w.arena.blocks ≠ [] := by rw [hblocks]; exact List.cons_ne_nil _ _
      rw [arena_alloc_of_nonempty hne hs ha hland]
      exact inv_allocCore hs h
  · rw [arena_alloc_of_bad_align hp]
    exact h

/-- `arena_reset` preserves the invariant. -/
theorem inv_reset {w : World} (h : ArenaInv w) : ArenaInv (arena_resetW w) := by
  refine ⟨?_, ?_, ?_⟩
  · intro b hb
    simp only [arena_resetW, arena_reset, List.mem_map] at hb
    obtain ⟨b', hb', rfl⟩ := hb
    exact h.cap_pos b' hb'
  · intro b hb
    simp only [arena_resetW, arena_reset, List.mem_map] at hb
    obtain ⟨b', hb', rfl⟩ := hb
    exact h.in_brk b' hb'
  · have hbl : (arena_resetW w).arena.blocks =
        w.arena.blocks.map (fun b => { b with index := 0 }) := rfl
    rw [hbl, List.pairwise_map]
    exact h.disj

/-- Every reachable world satisfies the invariant. -/
theorem reach_inv {w : World} (h : Reach w) : ArenaInv w := by
  induction h with
  | init dbs sys hdbs =>
    exact ⟨by intro b hb; simp [initW] at hb, by intro b hb; simp [initW] at hb,
      List.Pairwise.nil⟩
  | alloc s a _ ih => exact inv_alloc s a ih
  | reset _ ih => exact inv_reset ih

/-- The free walk releases exactly the chain's block addresses in order. -/
theorem arena_free_walk_eq (l : List ArenaBlock) :
    arena_free_walk l = l.map (fun b => b.base) := by
  induction l with
  | nil => rfl
  | cons b rest ih => simp [arena_free_walk, ih]

/-- C9 (confirmed): `free` on a null handle performs no release at all (so
no double-free can occur), while on a valid reachable arena it releases
exactly the blocks reachable from `head`, in chain order, each exactly once
(the released addresses are pairwise distinct), and then releases the arena
control structure. -/
theorem c9_free_releases_all_once (w : World) (hr : Reach w) :
    arena_freeT none = ([], false) ∧
    (arena_freeT (some w.arena)).2 = true ∧
    (arena_freeT (some w.arena)).1 = w.arena.blocks.map (fun b => b.base) ∧
    (arena_freeT (some w.arena)).1.Nodup := by
  have hinv := reach_inv hr
  refine ⟨rfl, rfl, arena_free_walk_eq _, ?_⟩
  show (arena_free_walk w.arena.blocks).Nodup
  rw [arena_free_walk_eq]
  have hp : w.arena.blocks.Pairwise (fun b b' => b.base ≠ b'.base) := by
    apply List.Pairwise.imp_of_mem ?_ hinv.disj
    intro b b' hb hb' hle
    have := hinv.cap_pos b hb
    omega
  exact List.pairwise_map.mpr hp

/-- Witness for the C9 theorem on a reachable one-block arena. -/
theorem c9_free_releases_all_once_witness :
    arena_freeT none = ([], false) ∧
    (arena_freeT (some (arena_alloc (initW 16 ⟨0, []⟩) 16 1).2.arena)).1 = [0] ∧
    (arena_freeT (some (arena_alloc (initW 16 ⟨0, []⟩) 16 1).2.arena)).1.Nodup := by
  have h := c9_free_releases_all_once (arena_alloc (initW 16 ⟨0, []⟩) 16 1).2
    (Reach.alloc 16 1 (Reach.init 16 ⟨0, []⟩ (by decide)))
  refine ⟨h.1, ?_, h.2.2.2⟩
  rw [h.2.2.1]
  decide

/-! ### Claim C8: checkpoint and restore (modelled from the spec) -/

/-- Restoring with a checkpoint that predates any block zeroes every
block. -/
theorem restoreBlocks_none (l : List ArenaBlock) (i : Nat) :
    restoreBlocks l none i = l.map (fun b => { b with index := 0 }) := by
  induction l with
  | nil => rfl
  | cons b rest ih => simp [restoreBlocks, ih]

/-- Restoring a checkpoint captured before any block existed is the full
reset. -/
theorem restore_none_eq_reset (a : Arena) (i : Nat) :
    arena_restore a ⟨none, i⟩ = arena_reset a := by
  unfold arena_restore arena_reset
  simp [restoreBlocks_none]

/-- The restore rewrite keeps the chain length. -/
theorem length_restoreBlocks (l : List ArenaBlock) (k? : Option Nat) (i : Nat) :
    (restoreBlocks l k? i).length = l.length := by
  induction l generalizing k? with
  | nil => cases k? <;> rfl
  | cons b rest ih =>
    match k? with
    | none => simp [restoreBlocks, ih]
    | some 0 => simp [restoreBlocks, ih]
    | some (j + 1) => simp [restoreBlocks, ih]

/-- Blocks strictly before the captured one are untouched by restore. -/
theorem restoreBlocks_getElem?_lt {l : List ArenaBlock} {k j i : Nat} (h : j < k) :
    (restoreBlocks l (some k) i)[j]? = l[j]? := by
  induction l generalizing k j with
  | nil => cases k <;> rfl
  | cons b rest ih =>
    match k, j with
    | 0, j => omega
    | k' + 1, 0 => simp [restoreBlocks]
    | k' + 1, j' + 1 =>
      simp only [restoreBlocks, List.getElem?_cons_succ]
      exact ih (by omega)

/-- The captured block's index is set back to the captured value. -/
theorem restoreBlocks_getElem?_self {l : List ArenaBlock} {k i : Nat} :
    (restoreBlocks l (some k) i)[k]? =
      (l[k]?).map (fun b => { b with index := i }) := by
  induction l generalizing k with
  | nil => cases k <;> rfl
  | cons b rest ih =>
    match k with
    | 0 => simp [restoreBlocks]
    | k' + 1 =>
      simp only [restoreBlocks, List.getElem?_cons_succ]
      exact ih

/-- Blocks strictly after the captured one get index zero. -/
theorem restoreBlocks_getElem?_gt {l : List ArenaBlock} {k j i : Nat} (h : k < j) :
    (restoreBlocks l (some k) i)[j]? =
      (l[j]?).map (fun b => { b with index := 0 }) := by
  induction l generalizing k j with
  | nil => cases k <;> rfl
  | cons b rest ih =>
    match k, j with
    | k, 0 => omega
    | 0, j' + 1 =>
      simp only [restoreBlocks, List.getElem?_cons_succ]
      rw [restoreBlocks_none, List.getElem?_map]
    | k' + 1, j' + 1 =>
      simp only [restoreBlocks, List.getElem?_cons_succ]
      exact ih (by omega)

/-- State preserved along a pure allocation sequence, relative to the chain
`l₀` and current position `k` at the start of the sequence: the current
position only moves forward, the chain keeps at least `k + 1` blocks, the
first `k` blocks are untouched, and the block at position `k` keeps its
base and capacity. -/
structure AllocPre (l₀ : List ArenaBlock) (k : Nat) (w : World) : Prop where
  hcur : k ≤ w.arena.cur
  hcur_lt : w.arena.cur < w.arena.blocks.length
  hpre : w.arena.blocks.take k = l₀.take k
  hat : (w.arena.blocks[k]?).map prof = (l₀[k]?).map prof

/-- One allocation step preserves `AllocPre`. -/
theorem allocPre_step {l₀ : List ArenaBlock} {k : Nat} {w : World} (s a : Nat)
    (h : AllocPre l₀ k w) : AllocPre l₀ k (arena_alloc w s a).2 := by
  obtain ⟨hcur, hcur_lt, hpre, hat⟩ := h
  have hne : w.arena.blocks ≠ [] := by
    intro hnil
    rw [hnil] at hcur_lt
    exact absurd hcur_lt (by simp)
  rcases eq_or_ne s 0 with rfl | hs
  · rw [arena_alloc_of_size_zero]
    exact ⟨hcur, hcur_lt, hpre, hat⟩
  by_cases hp : a ≠ 0 ∧ a &&& (a - 1) = 0
  · obtain ⟨ha, hland⟩ := hp
    have hc : w.arena.blocks[w.arena.cur]? = some w.arena.blocks[w.arena.cur] :=
      List.getElem?_eq_getElem hcur_lt
    by_cases hfit : w.arena.blocks[w.arena.cur].index +
        align_up (w.arena.blocks[w.arena.cur].base +
          w.arena.blocks[w.arena.cur].index) a + s >
        w.arena.blocks[w.arena.cur].capacity
    · rcases hm : w.sys.malloc (max s w.arena.default_block_size) with ⟨r, s'⟩
      match r with
      | none =>
        rw [arena_alloc_of_nonempty hne hs ha hland,
          allocCore_of_spill_fail hc hfit hm]
        exact ⟨hcur, hcur_lt, hpre, hat⟩
      | some b2 =>
        rw [arena_alloc_spill_eq hne hs ha hland hc hfit hm]
        have hlentk : (w.arena.blocks.take (w.arena.cur + 1)).length =
            w.arena.cur + 1 := by
          rw [List.length_take]
          omega
        refine ⟨?_, ?_, ?_, ?_⟩
        · show k ≤ w.arena.cur + 1
          omega
        · show w.arena.cur + 1 <
              ((w.arena.blocks.take (w.arena.cur + 1) ++
                 [(⟨b2, max s w.arena.default_block_size, 0⟩ : ArenaBlock)]).set
                 (w.arena.cur + 1)
                 (⟨b2, max s w.arena.default_block_size,
                   0 + align_up (b2 + 0) a + s⟩ : ArenaBlock)).length
          rw [List.length_set, List.length_append, hlentk]
          simp
        · show ((w.arena.blocks.take (w.arena.cur + 1) ++
              [(⟨b2, max s w.arena.default_block_size, 0⟩ : ArenaBlock)]).set
              (w.arena.cur + 1)
              (⟨b2, max s w.arena.default_block_size,
                0 + align_up (b2 + 0) a + s⟩ : ArenaBlock)).take k = l₀.take k
          rw [take_set_of_le _ _ _ _ (by omega),
            List.take_append_of_le_length (by rw [hlentk]; omega), List.take_take,
            Nat.min_eq_left (by omega)]
          exact hpre
        · show (((w.arena.blocks.take (w.arena.cur + 1) ++
              [(⟨b2, max s w.arena.default_block_size, 0⟩ : ArenaBlock)]).set
              (w.arena.cur + 1)
              (⟨b2, max s w.arena.default_block_size,
                0 + align_up (b2 + 0) a + s⟩ : ArenaBlock))[k]?).map prof =
              (l₀[k]?).map prof
          rw [List.getElem?_set_ne (by omega), List.getElem?_append,
            if_pos (by rw [hlentk]; omega), List.getElem?_take_of_lt (by omega)]
          exact hat
    · rw [arena_alloc_fit_eq hne hs ha hland hc hfit]
      refine ⟨hcur, ?_, ?_, ?_⟩
      · simp only [List.length_set]
        exact hcur_lt
      · rw [take_set_of_le _ _ _ _ (by omega)]
        exact hpre
      · rcases eq_or_ne w.arena.cur k with rfl | hk
        · rw [hc] at hat
          rw [List.getElem?_set_self hcur_lt]
          simpa [prof] using hat
        · rw [List.getElem?_set_ne hk]
          exact hat
  · rw [arena_alloc_of_bad_align hp]
    exact ⟨hcur, hcur_lt, hpre, hat⟩

/-- A whole allocation sequence preserves `AllocPre`. -/
theorem allocSeq_pre {w₀ w' : World} (hseq : AllocSeq w₀ w')
    (hk : w₀.arena.cur < w₀.arena.blocks.length) :
    AllocPre w₀.arena.blocks w₀.arena.cur w' := by
  induction hseq with
  | refl => exact ⟨Nat.le_refl _, hk, rfl, rfl⟩
  | step s a _ ih => exact allocPre_step s a ih

/-- C8 (spec-modelled, confirmed): `checkpoint` returns a token capturing the
identity of the block that was `current` and that block's cursor at capture
time; after any further sequence of allocations, `restore` with that token
rewinds the arena to exactly that allocation position: `current` points back
to the captured block, the chain up to and including the captured block is
bit-for-bit what it was at capture time (the captured block's cursor back at
the captured value, earlier blocks untouched), every block after the
captured one has cursor zero, and nothing else of the arena changes;
restoring a checkpoint captured before any block existed is the full
reset. -/
theorem c8_checkpoint_restore (w₀ w' : World) (aA : Arena) (i0 : Nat)
    (hne : w₀.arena.blocks ≠ [])
    (hk : w₀.arena.cur < w₀.arena.blocks.length)
    (hseq : AllocSeq w₀ w') :
    arena_checkpoint w₀.arena =
      ⟨some w₀.arena.cur,
        ((w₀.arena.blocks[w₀.arena.cur]?).map (fun b => b.index)).getD 0⟩ ∧
    (arena_restore w'.arena (arena_checkpoint w₀.arena)).cur = w₀.arena.cur ∧
    (arena_restore w'.arena (arena_checkpoint w₀.arena)).blocks.take
        (w₀.arena.cur + 1) =
      w₀.arena.blocks.take (w₀.arena.cur + 1) ∧
    ((arena_restore w'.arena (arena_checkpoint w₀.arena)).blocks.drop
        (w₀.arena.cur + 1)).all (fun b => b.index == 0) = true ∧
    (arena_restore w'.arena (arena_checkpoint w₀.arena)).default_block_size =
      w'.arena.default_block_size ∧
    arena_restore aA ⟨none, i0⟩ = arena_reset aA := by
  obtain ⟨hpc, hlt', hpre, hat⟩ := allocSeq_pre hseq hk
  obtain ⟨c₀, hc₀⟩ : ∃ c, w₀.arena.blocks[w₀.arena.cur]? = some c :=
    ⟨_, List.getElem?_eq_getElem hk⟩
  have hcp : arena_checkpoint w₀.arena = ⟨some w₀.arena.cur, c₀.index⟩ := by
    unfold arena_checkpoint
    rcases hbl : w₀.arena.blocks with _ | ⟨hd, tl⟩
    · exact absurd hbl hne
    · rw [hbl] at hc₀
      simp [hc₀]
  have hwlt : w₀.arena.cur < w'.arena.blocks.length := by omega
  obtain ⟨c', hc'⟩ : ∃ c, w'.arena.blocks[w₀.arena.cur]? = some c :=
    ⟨_, List.getElem?_eq_getElem hwlt⟩
  have hprofeq : prof c' = prof c₀ := by
    have h1 := hat
    rw [hc₀, hc'] at h1
    simpa using h1
  refine ⟨?_, ?_, ?_, ?_, ?_, restore_none_eq_reset aA i0⟩
  · rw [hcp, hc₀]
    rfl
  · rw [hcp]
    rfl
  · rw [hcp]
    show (restoreBlocks w'.arena.blocks (some w₀.arena.cur) c₀.index).take
        (w₀.arena.cur + 1) = w₀.arena.blocks.take (w₀.arena.cur + 1)
    apply List.ext_getElem?
    intro j
    by_cases hj : j < w₀.arena.cur + 1
    · rw [List.getElem?_take_of_lt hj, List.getElem?_take_of_lt hj]
      rcases Nat.lt_or_ge j w₀.arena.cur with hjk | hjk
      · rw [restoreBlocks_getElem?_lt hjk]
        have h1 := congrArg (fun l => l[j]?) hpre
        simp only at h1
        rw [List.getElem?_take_of_lt hjk, List.getElem?_take_of_lt hjk] at h1
        exact h1
      · have hjeq : j = w₀.arena.cur := by omega
        subst hjeq
        rw [restoreBlocks_getElem?_self, hc', hc₀]
        simp only [Option.map_some', Option.some.injEq]
        obtain ⟨cb, cc, ci⟩ := c'
        obtain ⟨db, dc, di⟩ := c₀
        simp only [prof, Prod.mk.injEq] at hprofeq
        simp [hprofeq.1, hprofeq.2]
    · rw [List.getElem?_eq_none (by rw [List.length_take]; omega),
        List.getElem?_eq_none (by rw [List.length_take]; omega)]
  · rw [hcp]
    show ((restoreBlocks w'.arena.blocks (some w₀.arena.cur) c₀.index).drop
        (w₀.arena.cur + 1)).all (fun b => b.index == 0) = true
    rw [List.all_eq_true]
    intro b hb
    obtain ⟨n, hn⟩ := List.mem_iff_getElem?.mp hb
    rw [List.getElem?_drop, restoreBlocks_getElem?_gt (by omega)] at hn
    rcases hx : w'.arena.blocks[w₀.arena.cur + 1 + n]? with _ | c
    · rw [hx] at hn
      simp at hn
    · rw [hx] at hn
      simp only [Option.map_some', Option.some.injEq] at hn
      rw [← hn]
      simp
  · rw [hcp]
    rfl

/-- Witness for the C8 theorem: an arena with one 8-byte allocation,
checkpointed, then one further 4-byte allocation; restore rewinds the block
cursor to 8 and keeps `current` at the head block. -/
theorem c8_checkpoint_restore_witness :
    arena_checkpoint (arena_alloc (initW 16 ⟨0, []⟩) 8 1).2.arena =
      ⟨some 0,
        (((arena_alloc (initW 16 ⟨0, []⟩) 8 1).2.arena.blocks[(0 : Nat)]?).map
          (fun b => b.index)).getD 0⟩ ∧
    (arena_restore (arena_alloc (arena_alloc (initW 16 ⟨0, []⟩) 8 1).2 4 1).2.arena
        (arena_checkpoint (arena_alloc (initW 16 ⟨0, []⟩) 8 1).2.arena)).cur = 0 ∧
    (arena_restore (arena_alloc (arena_alloc (initW 16 ⟨0, []⟩) 8 1).2 4 1).2.arena
        (arena_checkpoint (arena_alloc (initW 16 ⟨0, []⟩) 8 1).2.arena)).blocks.take 1 =
      (arena_alloc (initW 16 ⟨0, []⟩) 8 1).2.arena.blocks.take 1 ∧
    arena_restore ⟨[⟨0, 16, 12⟩], 0, 16⟩ ⟨none, 5⟩ =
      arena_reset ⟨[⟨0, 16, 12⟩], 0, 16⟩ := by
  have h := c8_checkpoint_restore (arena_alloc (initW 16 ⟨0, []⟩) 8 1).2
    (arena_alloc (arena_alloc (initW 16 ⟨0, []⟩) 8 1).2 4 1).2
    ⟨[⟨0, 16, 12⟩], 0, 16⟩ 5 (by decide) (by decide)
    (AllocSeq.step 4 1 (AllocSeq.refl _))
  exact ⟨h.1, h.2.1, h.2.2.1, h.2.2.2.2.2⟩
